import Mathlib

/-!
Verification development for the czSignature stroke geometry engine.

The engine's core routines are shallowly embedded over real numbers:
`Math.hypot` becomes `Real.sqrt` of a sum of squares, JS numbers become `ℝ`,
a point's optional `pressure` field becomes `Option ℝ`, and the SVG path
string emitted by the outline builder becomes a list of path commands
(`PathCmd`) carrying exact real coordinates (the `toFixed(2)` decimal
formatting of the string output is abstracted away; all geometric content
is retained).  Definitions named after the source (`simplifyStroke`,
`calculateWidths`, `generateSmoothSvgPathData`, `undo`, `fromData`) are
translated from `czSignature.js` v1.1; definitions prefixed with `spec`
or `claim` restate the natural-language specification for comparison.
-/

namespace CzSig

open scoped Classical

/-- A captured input sample `{x, y, time, pressure}`.  `pressure` is optional:
points loaded from serialized data may lack it (JS `undefined`). -/
structure Point where
  x : ℝ
  y : ℝ
  time : ℝ
  pressure : Option ℝ

instance : Inhabited Point := ⟨⟨0, 0, 0, none⟩⟩

/-- The geometry-relevant configuration options of the engine (string-valued
options such as colors and the `smoothingMode` switch play no role in the
routines verified here and are omitted). -/
structure SigOptions where
  minWidth : ℝ
  maxWidth : ℝ
  velocityFilterWeight : ℝ
  dotSize : ℝ
  minDistance : ℝ
  smoothingRatio : ℝ
  smoothingFadePoints : ℝ
  pressureSupport : Bool

/-- `Math.hypot dx dy`: the Euclidean length of the vector `(dx, dy)`. -/
noncomputable def hypot (dx dy : ℝ) : ℝ := Real.sqrt (dx * dx + dy * dy)

/-! ### Point Simplifier (`#simplifyStroke`) -/

/-- The body of the distance-filter loop of `#simplifyStroke`: walk the
remaining points, keeping a point exactly when its Euclidean distance from
`lastPoint` (the last kept point) exceeds `minD`. -/
noncomputable def filterLoop (minD : ℝ) (lastPoint : Point) : List Point → List Point
  | [] => []
  | p :: rest =>
      if hypot (p.x - lastPoint.x) (p.y - lastPoint.y) > minD then
        p :: filterLoop minD p rest
      else
        filterLoop minD lastPoint rest

/-- The distance-filter stage of `#simplifyStroke`: the first point is always
kept (`simplifiedPoints = [points[0]]`), then the loop runs over the rest. -/
noncomputable def distanceFilter (minD : ℝ) : List Point → List Point
  | [] => []
  | p :: rest => p :: filterLoop minD p rest

/-- One smoothed interior point of `#simplifyStroke`'s second stage, reading
`prev`/`current`/`next` from the filtered list `s` at indices `i-1`, `i`,
`i+1`, exactly as the source loop body does. -/
noncomputable def smoothAt (ratio fadeLength : ℝ) (s : List Point) (i : ℕ) : Point :=
  let prev := s.getD (i - 1) default
  let current := s.getD i default
  let next := s.getD (i + 1) default
  let fadeInRatio := min 1 ((i : ℝ) / fadeLength)
  let fadeOutRatio := min 1 (((s.length : ℝ) - 2 - (i : ℝ)) / fadeLength)
  let dynamicRatio := ratio * min fadeInRatio fadeOutRatio
  { x := current.x * (1 - dynamicRatio) + (prev.x + next.x) / 2 * dynamicRatio
    y := current.y * (1 - dynamicRatio) + (prev.y + next.y) / 2 * dynamicRatio
    time := current.time
    pressure := current.pressure }

/-- The fade-weighted smoothing stage of `#simplifyStroke`: the first point,
then one smoothed point per index `1 ≤ i ≤ length - 2`, then the last point. -/
noncomputable def smoothPoints (ratio fadeLength : ℝ) (s : List Point) : List Point :=
  s.getD 0 default ::
    ((List.range (s.length - 2)).map (fun j => smoothAt ratio fadeLength s (j + 1)) ++
      [s.getD (s.length - 1) default])

/-- `#simplifyStroke`: inputs of fewer than 3 points are returned as-is;
otherwise distance filtering runs, and smoothing only when at least 3 points
survive the filter. -/
noncomputable def simplifyStroke (o : SigOptions) (points : List Point) : List Point :=
  if points.length < 3 then points
  else
    let simplifiedPoints := distanceFilter o.minDistance points
    if simplifiedPoints.length < 3 then simplifiedPoints
    else smoothPoints o.smoothingRatio o.smoothingFadePoints simplifiedPoints

/-! ### Reference (spec-side) formulation of the Point Simplifier

These definitions restate the specification's words with a different
structure (a fold for the filter, an index map for the smoothing) so that
agreement with the source translation is a genuine theorem. -/

/-- Spec reference, distance filter: "walk points in order, keep a point only
if its Euclidean distance from the last kept point exceeds `minDistance`; the
first point is always kept" — phrased as a left fold carrying the reversed
kept list and the last kept point. -/
noncomputable def specDistanceFilter (minD : ℝ) (points : List Point) : List Point :=
  match points with
  | [] => []
  | p0 :: rest =>
      (rest.foldl
        (fun (acc : List Point × Point) q =>
          if hypot (q.x - acc.2.x) (q.y - acc.2.y) > minD then (q :: acc.1, q) else acc)
        ([p0], p0)).1.reverse

/-- Spec reference, one point of the smoothing stage: endpoints are returned
unmoved, and each interior point `i` becomes
`(1 - ratio) × current + ratio × midpoint(prev, next)` with
`ratio = smoothingRatio × min (min 1 (i / fade)) (min 1 ((N - 2 - i) / fade))`. -/
noncomputable def specSmoothedPoint (ratio fadeLength : ℝ) (s : List Point) (i : ℕ) : Point :=
  if i = 0 ∨ i = s.length - 1 then s.getD i default
  else
    let prev := s.getD (i - 1) default
    let current := s.getD i default
    let next := s.getD (i + 1) default
    let fadeIn := min 1 ((i : ℝ) / fadeLength)
    let fadeOut := min 1 (((s.length : ℝ) - 2 - (i : ℝ)) / fadeLength)
    let r := ratio * min fadeIn fadeOut
    { x := (1 - r) * current.x + r * ((prev.x + next.x) / 2)
      y := (1 - r) * current.y + r * ((prev.y + next.y) / 2)
      time := current.time
      pressure := current.pressure }

/-- Spec reference, smoothing stage: every index of the filtered list is
mapped through `specSmoothedPoint`. -/
noncomputable def specSmooth (ratio fadeLength : ℝ) (s : List Point) : List Point :=
  (List.range s.length).map (specSmoothedPoint ratio fadeLength s)

/-- Spec reference, two-stage simplification: inputs shorter than 3 points are
returned as-is; otherwise filter, and smooth only when at least 3 points
remain. -/
noncomputable def specSimplify (o : SigOptions) (points : List Point) : List Point :=
  if points.length < 3 then points
  else
    let filtered := specDistanceFilter o.minDistance points
    if filtered.length < 3 then filtered
    else specSmooth o.smoothingRatio o.smoothingFadePoints filtered

/-! ### Width Modulator (`#calculateWidths`) -/

/-- JS comparison `pressure > c` on the optional pressure field: comparing
`undefined` is false. -/
def pressureAbove (p : Option ℝ) (c : ℝ) : Prop :=
  match p with
  | some v => c < v
  | none => False

/-- JS comparison `pressure < c` on the optional pressure field: comparing
`undefined` is false. -/
def pressureBelow (p : Option ℝ) (c : ℝ) : Prop :=
  match p with
  | some v => v < c
  | none => False

/-- The mode decision of `#calculateWidths`, recomputed on each call:
`options.pressureSupport && points.some(p => p.pressure > 0 && p.pressure < 1)`. -/
def usePressure (o : SigOptions) (points : List Point) : Prop :=
  o.pressureSupport = true ∧ ∃ p ∈ points, pressureAbove p.pressure 0 ∧ pressureBelow p.pressure 1

/-- The pressure value read in the pressure branch.  In JS a missing pressure
would propagate `NaN`; `ℝ` has no `NaN`, so the missing case is mapped to `0`,
and every theorem touching the pressure branch assumes the pressure present. -/
def pressureVal (p : Point) : ℝ := p.pressure.getD 0

/-- The instantaneous velocity of `#calculateWidths` at a point with a
predecessor: `time > 0 ? distance / time : lastVelocity`. -/
noncomputable def instantVelocity (prev cur : Point) (lastVelocity : ℝ) : ℝ :=
  let distance := hypot (cur.x - prev.x) (cur.y - prev.y)
  let time := cur.time - prev.time
  if time > 0 then distance / time else lastVelocity

/-- The raw velocity of a loop step of `#calculateWidths`: 0 at the first
point (no predecessor), `instantVelocity` otherwise. -/
noncomputable def velOfPrev (prev : Option Point) (p : Point) (lastVelocity : ℝ) : ℝ :=
  match prev with
  | none => 0
  | some q => instantVelocity q p lastVelocity

/-- The loop of `#calculateWidths`, carrying the previous point (none at the
first iteration, where velocity is 0) and the filtered velocity accumulator
`lastVelocity`; the mode flag `useP` is loop-invariant. -/
noncomputable def calcLoop (o : SigOptions) (minW maxW : ℝ) (useP : Prop) :
    Option Point → ℝ → List Point → List ℝ
  | _, _, [] => []
  | prev, lastVelocity, p :: rest =>
      if useP then
        (minW + (maxW - minW) * pressureVal p) ::
          calcLoop o minW maxW useP (some p) lastVelocity rest
      else
        let velocity := velOfPrev prev p lastVelocity
        let lastV := velocity * (1 - o.velocityFilterWeight) +
          lastVelocity * o.velocityFilterWeight
        max minW (min maxW (maxW - lastV * 1.5)) ::
          calcLoop o minW maxW useP (some p) lastV rest

/-- `#calculateWidths(points, minWidth, maxWidth)`. -/
noncomputable def calculateWidths (o : SigOptions) (points : List Point) (minW maxW : ℝ) :
    List ℝ :=
  calcLoop o minW maxW (usePressure o points) none 0 points

/-! ### Claim-side formulations of the velocity-mode Width Modulator -/

/-- The instantaneous velocity exactly as claimed: distance over time delta,
falling back to the previous filtered velocity only when the delta is `= 0`. -/
noncomputable def claimVelocity (prev cur : Point) (vFiltered : ℝ) : ℝ :=
  if cur.time - prev.time = 0 then vFiltered
  else hypot (cur.x - prev.x) (cur.y - prev.y) / (cur.time - prev.time)

/-- One step of the claimed velocity-mode recurrence, folded over the points:
the state is (previous point, filtered velocity, widths emitted so far). -/
noncomputable def claimVelStep (w minW maxW : ℝ) (vel : Option Point → Point → ℝ → ℝ)
    (st : Option Point × ℝ × List ℝ) (p : Point) : Option Point × ℝ × List ℝ :=
  let vInst := vel st.1 p st.2.1
  let vF := vInst * (1 - w) + st.2.1 * w
  (some p, vF, st.2.2 ++ [max minW (min maxW (maxW - vF * 1.5))])

/-- Velocity for the first point (no predecessor) is 0, as claimed. -/
noncomputable def claimVelOfPrev (vel : Point → Point → ℝ → ℝ) :
    Option Point → Point → ℝ → ℝ
  | none, _, _ => 0
  | some q, p, vF => vel q p vF

/-- The widths the claim describes in velocity mode (fallback at `Δt = 0`). -/
noncomputable def claimVelWidths (w minW maxW : ℝ) (points : List Point) : List ℝ :=
  (points.foldl (claimVelStep w minW maxW (claimVelOfPrev claimVelocity)) (none, 0, [])).2.2

/-- The amended instantaneous velocity: fall back to the previous filtered
velocity whenever the time delta is zero OR negative. -/
noncomputable def amendedVelocity (prev cur : Point) (vFiltered : ℝ) : ℝ :=
  if cur.time - prev.time ≤ 0 then vFiltered
  else hypot (cur.x - prev.x) (cur.y - prev.y) / (cur.time - prev.time)

/-- The widths the amended claim describes in velocity mode. -/
noncomputable def amendedVelWidths (w minW maxW : ℝ) (points : List Point) : List ℝ :=
  (points.foldl (claimVelStep w minW maxW (claimVelOfPrev amendedVelocity)) (none, 0, [])).2.2

/-! ### Outline Path Builder (`#generateSmoothSvgPathData`)

The emitted SVG path string is modeled as a list of commands with exact real
coordinates.  `arc` / `arcRel` carry the radius the code writes twice
(`rx = ry`); the `0 0 1` / `0 1,0` flag groups are fixed in the source and are
implicit in the constructor. -/

inductive PathCmd where
  | move (p : ℝ × ℝ)
  | moveRel (d : ℝ × ℝ)
  | arc (r : ℝ) (p : ℝ × ℝ)
  | arcRel (r : ℝ) (d : ℝ × ℝ)
  | quad (c : ℝ × ℝ) (p : ℝ × ℝ)
  | line (p : ℝ × ℝ)
  | close

/-- The per-point tangent of the outline builder: forward difference at the
first point, backward difference at the last, centered difference halved at
interior points (`nextP`/`prevP` fall back to the point itself at the ends,
exactly as in the source). -/
noncomputable def tangentAt (points : List Point) (i : ℕ) : ℝ × ℝ :=
  let p := points.getD i default
  let nextP := if i < points.length - 1 then points.getD (i + 1) default else p
  let prevP := if 0 < i then points.getD (i - 1) default else p
  if i = 0 then (nextP.x - p.x, nextP.y - p.y)
  else if i = points.length - 1 then (p.x - prevP.x, p.y - prevP.y)
  else ((nextP.x - prevP.x) / 2, (nextP.y - prevP.y) / 2)

/-- The per-point normal: `(-tangentY / length, tangentX / length)` with the
JS guard `Math.hypot(...) || 1` modeled as substituting 1 for a zero length. -/
noncomputable def normalAt (points : List Point) (i : ℕ) : ℝ × ℝ :=
  let t := tangentAt points i
  let len := if hypot t.1 t.2 = 0 then 1 else hypot t.1 t.2
  (-t.2 / len, t.1 / len)

/-- `outline1`: each point displaced by `+normal × width/2`. -/
noncomputable def outline1 (points : List Point) (widths : List ℝ) : List (ℝ × ℝ) :=
  (List.range points.length).map fun i =>
    let p := points.getD i default
    let n := normalAt points i
    let halfWidth := widths.getD i 0 / 2
    (p.x + n.1 * halfWidth, p.y + n.2 * halfWidth)

/-- `outline2`: each point displaced by `-normal × width/2`. -/
noncomputable def outline2 (points : List Point) (widths : List ℝ) : List (ℝ × ℝ) :=
  (List.range points.length).map fun i =>
    let p := points.getD i default
    let n := normalAt points i
    let halfWidth := widths.getD i 0 / 2
    (p.x - n.1 * halfWidth, p.y - n.2 * halfWidth)

/-- The forward walk of an outline: for each consecutive pair, a quadratic
curve with the first point as control, ending at the pair's midpoint. -/
noncomputable def quadMidCmds (ol : List (ℝ × ℝ)) : List PathCmd :=
  (List.range (ol.length - 1)).map fun i =>
    let p1 := ol.getD i (0, 0)
    let p2 := ol.getD (i + 1) (0, 0)
    PathCmd.quad p1 ((p1.1 + p2.1) / 2, (p1.2 + p2.2) / 2)

/-- `#generateSmoothSvgPathData(points, widths)`.  The single-point branch
emits the full-circle pattern (`M`, relative `m`, two relative `a` arcs) with
radius `(options.maxWidth || options.dotSize) / 2`.  The multi-point branch
emits: move to `outline1[0]`, start-cap arc to `outline2[0]`, the forward
midpoint-quadratic walk of `outline2`, a line to the last `outline2` point,
the end-cap arc to the last `outline1` point, the backward midpoint-quadratic
walk of `outline1` (the source loop from `length-2` down to `0` with
`p1 = outline1[i+1]`, `p2 = outline1[i]` is exactly the forward walk of the
reversed list), and `Z`. -/
noncomputable def generateSmoothSvgPathData (o : SigOptions) (points : List Point)
    (widths : List ℝ) : List PathCmd :=
  if points.length < 2 then
    if points.length = 1 then
      let p := points.getD 0 default
      let r := (if o.maxWidth = 0 then o.dotSize else o.maxWidth) / 2
      [PathCmd.move (p.x, p.y), PathCmd.moveRel (-r, 0),
        PathCmd.arcRel r (r * 2, 0), PathCmd.arcRel r (-(r * 2), 0)]
    else []
  else
    let ol1 := outline1 points widths
    let ol2 := outline2 points widths
    let startCapRadius := widths.getD 0 0 / 2
    let endCapRadius := widths.getD (widths.length - 1) 0 / 2
    PathCmd.move (ol1.getD 0 (0, 0)) ::
      PathCmd.arc startCapRadius (ol2.getD 0 (0, 0)) ::
      (quadMidCmds ol2 ++
        (PathCmd.line (ol2.getD (ol2.length - 1) (0, 0)) ::
          PathCmd.arc endCapRadius (ol1.getD (ol1.length - 1) (0, 0)) ::
          (quadMidCmds ol1.reverse ++ [PathCmd.close])))

/-! ### Claim-side formulations of the Outline Path Builder -/

/-- Spec tangent: forward difference first, backward difference last,
centered difference halved inside. -/
noncomputable def specTangent (points : List Point) (i : ℕ) : ℝ × ℝ :=
  if i = 0 then
    ((points.getD 1 default).x - (points.getD 0 default).x,
      (points.getD 1 default).y - (points.getD 0 default).y)
  else if i = points.length - 1 then
    ((points.getD i default).x - (points.getD (i - 1) default).x,
      (points.getD i default).y - (points.getD (i - 1) default).y)
  else
    (((points.getD (i + 1) default).x - (points.getD (i - 1) default).x) / 2,
      ((points.getD (i + 1) default).y - (points.getD (i - 1) default).y) / 2)

/-- Spec normal: normalize the tangent (substituting length 1 for a
zero-length tangent), then rotate by 90 degrees: `(-ty, tx) / length`. -/
noncomputable def specNormal (points : List Point) (i : ℕ) : ℝ × ℝ :=
  let t := specTangent points i
  let len := if hypot t.1 t.2 = 0 then 1 else hypot t.1 t.2
  let unitT := (t.1 / len, t.2 / len)
  (-unitT.2, unitT.1)

/-- Spec outline: each point displaced by `sign × normal × width[i]/2`
(`sign = 1` gives `outline1`, `sign = -1` gives `outline2`). -/
noncomputable def specOutline (points : List Point) (widths : List ℝ) (sign : ℝ) :
    List (ℝ × ℝ) :=
  (List.range points.length).map fun i =>
    let p := points.getD i default
    let n := specNormal points i
    (p.x + sign * n.1 * (widths.getD i 0 / 2), p.y + sign * n.2 * (widths.getD i 0 / 2))

/-- Spec walk: quadratic curves through consecutive midpoints, as a structural
recursion over the outline. -/
noncomputable def specQuads : List (ℝ × ℝ) → List PathCmd
  | p1 :: p2 :: rest =>
      PathCmd.quad p1 ((p1.1 + p2.1) / 2, (p1.2 + p2.2) / 2) :: specQuads (p2 :: rest)
  | _ => []

/-- The closed path exactly as the claim states it: start at `outline1[0]`,
start-cap arc to `outline2[0]`, forward midpoint-quadratic walk of `outline2`,
end-cap arc to the last `outline1` point, backward walk of `outline1`, close —
with NO line segment between the forward walk and the end cap. -/
noncomputable def claimOutlinePath (points : List Point) (widths : List ℝ) : List PathCmd :=
  let ol1 := specOutline points widths 1
  let ol2 := specOutline points widths (-1)
  PathCmd.move (ol1.getD 0 (0, 0)) ::
    PathCmd.arc (widths.getD 0 0 / 2) (ol2.getD 0 (0, 0)) ::
    (specQuads ol2 ++
      (PathCmd.arc (widths.getD (widths.length - 1) 0 / 2) (ol1.getD (ol1.length - 1) (0, 0)) ::
        (specQuads ol1.reverse ++ [PathCmd.close])))

/-- The amended claim's path: as `claimOutlinePath`, but with the line segment
to the last `outline2` point (which the code emits) inserted between the
forward walk and the end-cap arc. -/
noncomputable def amendedOutlinePath (points : List Point) (widths : List ℝ) : List PathCmd :=
  let ol1 := specOutline points widths 1
  let ol2 := specOutline points widths (-1)
  PathCmd.move (ol1.getD 0 (0, 0)) ::
    PathCmd.arc (widths.getD 0 0 / 2) (ol2.getD 0 (0, 0)) ::
    (specQuads ol2 ++
      (PathCmd.line (ol2.getD (ol2.length - 1) (0, 0)) ::
        PathCmd.arc (widths.getD (widths.length - 1) 0 / 2) (ol1.getD (ol1.length - 1) (0, 0)) ::
          (specQuads ol1.reverse ++ [PathCmd.close])))

/-! ### Geometry of the single-point (dot) path -/

/-- The circle of radius `r` around `c`, as a point set. -/
def circle (c : ℝ × ℝ) (r : ℝ) : Set (ℝ × ℝ) :=
  {q | (q.1 - c.1) ^ 2 + (q.2 - c.2) ^ 2 = r ^ 2}

/-- The point set traced by the SVG relative arc `a r,r 0 1,0 dx,dy` in the
degenerate case the dot path emits (the chord is a diameter): the half of the
circle with center the chord midpoint and radius half the chord that lies on
the sweep-0 side of the chord. -/
def arc0Trace (s f : ℝ × ℝ) : Set (ℝ × ℝ) :=
  {q | (q.1 - (s.1 + f.1) / 2) ^ 2 + (q.2 - (s.2 + f.2) / 2) ^ 2
        = ((f.1 - s.1) ^ 2 + (f.2 - s.2) ^ 2) / 4
      ∧ 0 ≤ (f.1 - s.1) * (q.2 - (s.2 + f.2) / 2) - (f.2 - s.2) * (q.1 - (s.1 + f.1) / 2)}

/-- The point set traced by the single-point path pattern
`[move, moveRel, arcRel, arcRel]`.  Other command shapes are given the empty
trace: this semantics covers exactly the shape the single-point branch emits. -/
def dotPathTrace : List PathCmd → Set (ℝ × ℝ)
  | [PathCmd.move p, PathCmd.moveRel d, PathCmd.arcRel _ d1, PathCmd.arcRel _ d2] =>
      arc0Trace (p.1 + d.1, p.2 + d.2) (p.1 + d.1 + d1.1, p.2 + d.2 + d1.2) ∪
        arc0Trace (p.1 + d.1 + d1.1, p.2 + d.2 + d1.2)
          (p.1 + d.1 + d1.1 + d2.1, p.2 + d.2 + d1.2 + d2.2)
  | _ => ∅

/-! ### Stroke collection state (`undo`, `fromData`) -/

/-- A finished stroke: point list plus rendering attributes. -/
structure Stroke where
  points : List Point
  color : String
  minWidth : ℝ
  maxWidth : ℝ

/-- The mutable drawing state of the component: the fields `#resetState`
touches.  Canvas and listener plumbing is outside the model. -/
structure SigState where
  isDrawing : Bool
  currentStroke : List Point
  allStrokes : List Stroke
  drawing : Bool

/-- `undo()`: pop the most recent stroke and report `true`, or report `false`
on an empty collection, leaving everything unchanged.  The redraw and the
`undo` event are render/listener side effects outside the model. -/
def undo (st : SigState) : Bool × SigState :=
  if 0 < st.allStrokes.length then
    (true, { st with allStrokes := st.allStrokes.dropLast })
  else
    (false, st)

/-- The argument of `fromData`: either an array of strokes or any non-array
JS value. -/
inductive LoadData where
  | arr (strokes : List Stroke)
  | nonArray

/-- `fromData(data)`: a non-array argument is reported (`console.error`,
modeled as the returned message) and the load aborts with the state
untouched; an array argument runs `clear()` (resetting all drawing state)
and then installs the array as the whole collection. -/
def fromData (st : SigState) (d : LoadData) : SigState × Option String :=
  match d with
  | LoadData.nonArray => (st, some "Data to load must be an array.")
  | LoadData.arr data =>
      ({ isDrawing := false, currentStroke := [], allStrokes := data, drawing := false }, none)

/-! ## Theorems

Helper lemmas first, then one theorem per claim (with witnesses and
counterexamples where required). -/

theorem foldl_filter_eq (minD : ℝ) :
    ∀ (rest acc : List Point) (last : Point),
      ((rest.foldl
        (fun (a : List Point × Point) q =>
          if hypot (q.x - a.2.x) (q.y - a.2.y) > minD then (q :: a.1, q) else a)
        (acc, last)).1).reverse
        = acc.reverse ++ filterLoop minD last rest := by
  intro rest
  induction rest with
  | nil =>
      intro acc last
      simp [filterLoop]
  | cons q rest ih =>
      intro acc last
      simp only [List.foldl_cons, filterLoop]
      by_cases h : hypot (q.x - last.x) (q.y - last.y) > minD
      · rw [if_pos h, if_pos h, ih]
        simp
      · rw [if_neg h, if_neg h, ih]

theorem specDistanceFilter_eq (minD : ℝ) (points : List Point) :
    specDistanceFilter minD points = distanceFilter minD points := by
  cases points with
  | nil => rfl
  | cons p0 rest =>
      dsimp only [specDistanceFilter, distanceFilter]
      rw [foldl_filter_eq]
      simp

theorem range_map_decomp {α : Type} (f : ℕ → α) (n : ℕ) :
    (List.range (n + 3)).map f
      = f 0 :: (((List.range (n + 1)).map fun j => f (j + 1)) ++ [f (n + 2)]) := by
  have h3 : n + 3 = (n + 2) + 1 := rfl
  have h2 : n + 2 = (n + 1) + 1 := rfl
  rw [h3, List.range_succ_eq_map, h2, List.range_succ]
  simp [List.map_map, Function.comp_def, Nat.succ_eq_add_one]

theorem specSmoothedPoint_zero (ratio fade : ℝ) (s : List Point) :
    specSmoothedPoint ratio fade s 0 = s.getD 0 default := by
  unfold specSmoothedPoint
  rw [if_pos (Or.inl rfl)]

theorem specSmoothedPoint_last (ratio fade : ℝ) (s : List Point) :
    specSmoothedPoint ratio fade s (s.length - 1) = s.getD (s.length - 1) default := by
  unfold specSmoothedPoint
  rw [if_pos (Or.inr rfl)]

theorem specSmoothedPoint_interior (ratio fade : ℝ) (s : List Point) (i : ℕ)
    (h0 : i ≠ 0) (h1 : i ≠ s.length - 1) :
    specSmoothedPoint ratio fade s i = smoothAt ratio fade s i := by
  simp only [specSmoothedPoint, smoothAt]
  rw [if_neg (by tauto)]
  simp only [Point.mk.injEq, and_true]
  constructor <;> ring

theorem specSmooth_eq_smoothPoints (ratio fade : ℝ) (s : List Point) (hs : 3 ≤ s.length) :
    specSmooth ratio fade s = smoothPoints ratio fade s := by
  obtain ⟨n, hn⟩ : ∃ n, s.length = n + 3 := ⟨s.length - 3, by omega⟩
  unfold specSmooth smoothPoints
  rw [hn, range_map_decomp]
  have h2 : n + 3 - 2 = n + 1 := rfl
  have h1 : n + 3 - 1 = n + 2 := rfl
  rw [h2, h1]
  have hhead : specSmoothedPoint ratio fade s 0 = s.getD 0 default :=
    specSmoothedPoint_zero ratio fade s
  have hmap : (List.range (n + 1)).map (fun j => specSmoothedPoint ratio fade s (j + 1))
      = (List.range (n + 1)).map (fun j => smoothAt ratio fade s (j + 1)) :=
    List.map_congr_left fun j hj => by
      have hjlt : j < n + 1 := List.mem_range.mp hj
      exact specSmoothedPoint_interior ratio fade s (j + 1) (by omega) (by omega)
  have hlast2 : specSmoothedPoint ratio fade s (n + 2) = s.getD (n + 2) default := by
    have hlast := specSmoothedPoint_last ratio fade s
    rw [hn] at hlast
    exact hlast
  rw [hhead, hmap, hlast2]

/-- C1: for every input, `#simplifyStroke` equals the specification's
two-stage reference algorithm: a distance filter that always keeps the first
point and keeps a point exactly when its Euclidean distance from the last
kept point exceeds `minDistance`; the filtered sequence is returned unchanged
when fewer than 3 points remain, and otherwise every interior point is
replaced by `(1-ratio)·current + ratio·midpoint(prev, next)` in x and y with
`ratio = smoothingRatio · min (min 1 (i/fade)) (min 1 ((N-2-i)/fade))`, the
endpoints returned unmoved; inputs of fewer than 3 points are returned
as-is. -/
theorem simplifyStroke_eq_spec (o : SigOptions) (points : List Point) :
    simplifyStroke o points = specSimplify o points := by
  simp only [simplifyStroke, specSimplify]
  rw [specDistanceFilter_eq]
  by_cases h3 : points.length < 3
  · rw [if_pos h3, if_pos h3]
  · rw [if_neg h3, if_neg h3]
    by_cases hf : (distanceFilter o.minDistance points).length < 3
    · rw [if_pos hf, if_pos hf]
    · rw [if_neg hf, if_neg hf]
      exact (specSmooth_eq_smoothPoints _ _ _ (by omega)).symm

/-- C8: `undo()` on an empty stroke collection returns the failure indicator
`false` and leaves the entire state unchanged; on a non-empty collection it
returns `true`, removes exactly the most recently appended stroke, and leaves
every earlier stroke unchanged. -/
theorem undo_empty_and_pop :
    (∀ (d : Bool) (cur : List Point) (dr : Bool),
        undo ⟨d, cur, [], dr⟩ = (false, ⟨d, cur, [], dr⟩))
    ∧ ∀ (d : Bool) (cur : List Point) (dr : Bool) (earlier : List Stroke) (s : Stroke),
        undo ⟨d, cur, earlier ++ [s], dr⟩ = (true, ⟨d, cur, earlier, dr⟩) := by
  constructor
  · intro d cur dr
    rfl
  · intro d cur dr earlier s
    simp [undo]

/-- C9: `fromData` on a non-array argument reports the error non-fatally
(the returned message models `console.error`) and leaves the whole state —
the stroke collection included — exactly as it was; on an array argument it
replaces the collection wholesale (after the `clear()` reset of the drawing
state). -/
theorem fromData_rejects_nonarray_and_replaces :
    (∀ st : SigState,
        fromData st LoadData.nonArray = (st, some "Data to load must be an array."))
    ∧ ∀ (st : SigState) (data : List Stroke),
        fromData st (LoadData.arr data) = (⟨false, [], data, false⟩, none) :=
  ⟨fun _ => rfl, fun _ _ => rfl⟩

theorem calcLoop_cons_pressure (o : SigOptions) (minW maxW : ℝ) {useP : Prop}
    (hp : useP) (prev : Option Point) (lastV : ℝ) (p : Point) (rest : List Point) :
    calcLoop o minW maxW useP prev lastV (p :: rest)
      = (minW + (maxW - minW) * pressureVal p) ::
          calcLoop o minW maxW useP (some p) lastV rest := by
  simp only [calcLoop, if_pos hp]

theorem calcLoop_cons_velocity (o : SigOptions) (minW maxW : ℝ) {useP : Prop}
    (hnp : ¬ useP) (prev : Option Point) (lastV : ℝ) (p : Point) (rest : List Point) :
    calcLoop o minW maxW useP prev lastV (p :: rest)
      = max minW (min maxW (maxW -
          (velOfPrev prev p lastV * (1 - o.velocityFilterWeight) +
            lastV * o.velocityFilterWeight) * 1.5)) ::
        calcLoop o minW maxW useP (some p)
          (velOfPrev prev p lastV * (1 - o.velocityFilterWeight) +
            lastV * o.velocityFilterWeight) rest := by
  simp only [calcLoop, if_neg hnp]

theorem calcLoop_length (o : SigOptions) (minW maxW : ℝ) (useP : Prop) :
    ∀ (points : List Point) (prev : Option Point) (lastV : ℝ),
      (calcLoop o minW maxW useP prev lastV points).length = points.length := by
  intro points
  induction points with
  | nil => intro prev lastV; rfl
  | cons p rest ih =>
      intro prev lastV
      by_cases h : useP
      · simp only [calcLoop, if_pos h, List.length_cons, ih]
      · simp only [calcLoop, if_neg h, List.length_cons, ih]

/-- C10: the velocity computation is total for arbitrary timestamps: whenever
the time delta is zero or negative, the instantaneous velocity falls back to
the previous filtered velocity (no division by a non-positive delta occurs),
and the Width Modulator produces a defined width for every point of every
input. -/
theorem velocity_fallback_total :
    (∀ (prev cur : Point) (lastV : ℝ), cur.time - prev.time ≤ 0 →
        instantVelocity prev cur lastV = lastV)
    ∧ ∀ (o : SigOptions) (points : List Point) (minW maxW : ℝ),
        (calculateWidths o points minW maxW).length = points.length := by
  constructor
  · intro prev cur lastV h
    simp only [instantVelocity]
    exact if_neg (not_lt.mpr h)
  · intro o points minW maxW
    exact calcLoop_length o minW maxW _ points none 0

/-- C10 witness: at two points with equal timestamps the instantaneous
velocity is the previous filtered velocity. -/
theorem velocity_fallback_total_witness :
    instantVelocity ⟨0, 0, 5, none⟩ ⟨3, 4, 5, none⟩ 7 = 7 :=
  velocity_fallback_total.1 ⟨0, 0, 5, none⟩ ⟨3, 4, 5, none⟩ 7 (by norm_num)

theorem pressureAbove_some {v c : ℝ} : pressureAbove (some v) c ↔ c < v := Iff.rfl

theorem pressureBelow_some {v c : ℝ} : pressureBelow (some v) c ↔ v < c := Iff.rfl

theorem pressureAbove_none {c : ℝ} : ¬ pressureAbove none c := fun h => h

theorem calcLoop_pressure_getD (o : SigOptions) (minW maxW : ℝ) (useP : Prop)
    (hp : useP) :
    ∀ (points : List Point) (prev : Option Point) (lastV : ℝ) (i : ℕ),
      i < points.length →
      (calcLoop o minW maxW useP prev lastV points).getD i 0
        = minW + (maxW - minW) * pressureVal (points.getD i default) := by
  intro points
  induction points with
  | nil =>
      intro prev lastV i hi
      exact absurd hi (by simp)
  | cons p rest ih =>
      intro prev lastV i hi
      rw [calcLoop_cons_pressure o minW maxW hp prev lastV p rest]
      cases i with
      | zero => simp
      | succ j =>
          simp only [List.getD_cons_succ]
          exact ih (some p) lastV j (by simpa using hi)

/-- C3: pressure mode is active for a call of the Width Modulator exactly when
`pressureSupport` is enabled AND at least one point carries a pressure value
strictly between 0 and 1 (pressures of exactly 0 or exactly 1 never trigger
it); when active, every point carrying a pressure `pr` receives width
`minWidth + (maxWidth - minWidth) · pr`.  The mode decision is a pure function
of the call's arguments, hence recomputed on every call. -/
theorem pressure_mode_characterization (o : SigOptions) (points : List Point)
    (minW maxW : ℝ) :
    (usePressure o points ↔
      (o.pressureSupport = true ∧
        ∃ p ∈ points, ∃ pr, p.pressure = some pr ∧ 0 < pr ∧ pr < 1))
    ∧ (usePressure o points →
        ∀ i : ℕ, i < points.length → ∀ pr : ℝ,
          (points.getD i default).pressure = some pr →
          (calculateWidths o points minW maxW).getD i 0 = minW + (maxW - minW) * pr) := by
  constructor
  · constructor
    · rintro ⟨hs, p, hmem, hab, hbl⟩
      refine ⟨hs, p, hmem, ?_⟩
      cases hpr : p.pressure with
      | none => rw [hpr] at hab; exact absurd hab pressureAbove_none
      | some v =>
          rw [hpr] at hab hbl
          exact ⟨v, rfl, pressureAbove_some.mp hab, pressureBelow_some.mp hbl⟩
    · rintro ⟨hs, p, hmem, pr, hpr, h0, h1⟩
      refine ⟨hs, p, hmem, ?_, ?_⟩
      · rw [hpr]; exact pressureAbove_some.mpr h0
      · rw [hpr]; exact pressureBelow_some.mpr h1
  · intro hup i hi pr hpr
    rw [calculateWidths, calcLoop_pressure_getD o minW maxW _ hup points none 0 i hi,
      pressureVal, hpr]
    rfl

/-- C3 witness: with `pressureSupport` on and a single point of pressure 1/2,
pressure mode is active and the emitted width is `1 + (3 - 1) · (1/2)`. -/
theorem pressure_mode_characterization_witness :
    (calculateWidths ⟨1, 3, 7/10, 2, 4/5, 1/2, 4, true⟩ [⟨0, 0, 0, some (1/2)⟩] 1 3).getD 0 0
      = 1 + (3 - 1) * (1/2) := by
  refine (pressure_mode_characterization ⟨1, 3, 7/10, 2, 4/5, 1/2, 4, true⟩
      [⟨0, 0, 0, some (1/2)⟩] 1 3).2 ?_ 0 (by simp) (1/2) rfl
  exact ⟨rfl, ⟨0, 0, 0, some (1/2)⟩, by simp, by norm_num [pressureAbove_some],
    by norm_num [pressureBelow_some]⟩

theorem calcLoop_velocity_bounds (o : SigOptions) (minW maxW : ℝ) (useP : Prop)
    (hnp : ¬ useP) (hle : minW ≤ maxW) :
    ∀ (points : List Point) (prev : Option Point) (lastV : ℝ),
      ∀ w ∈ calcLoop o minW maxW useP prev lastV points, minW ≤ w ∧ w ≤ maxW := by
  intro points
  induction points with
  | nil =>
      intro prev lastV w hw
      simp [calcLoop] at hw
  | cons p rest ih =>
      intro prev lastV w hw
      rw [calcLoop_cons_velocity o minW maxW hnp prev lastV p rest] at hw
      rcases List.mem_cons.mp hw with h | h
      · subst h
        exact ⟨le_max_left _ _, max_le hle (min_le_left _ _)⟩
      · exact ih (some p) _ w h

theorem calcLoop_pressure_bounds (o : SigOptions) (minW maxW : ℝ) (useP : Prop)
    (hp : useP) (hle : minW ≤ maxW) :
    ∀ points : List Point,
      (∀ p ∈ points, ∃ pr, p.pressure = some pr ∧ 0 ≤ pr ∧ pr ≤ 1) →
      ∀ (prev : Option Point) (lastV : ℝ),
        ∀ w ∈ calcLoop o minW maxW useP prev lastV points, minW ≤ w ∧ w ≤ maxW := by
  intro points
  induction points with
  | nil =>
      intro hpr prev lastV w hw
      simp [calcLoop] at hw
  | cons p rest ih =>
      intro hpr prev lastV w hw
      rw [calcLoop_cons_pressure o minW maxW hp prev lastV p rest] at hw
      rcases List.mem_cons.mp hw with h | h
      · subst h
        obtain ⟨pr, hsome, h0, h1⟩ := hpr p (List.mem_cons_self p rest)
        rw [pressureVal, hsome, Option.getD_some]
        constructor
        · nlinarith
        · nlinarith
      · exact ih (fun q hq => hpr q (List.mem_cons_of_mem p hq)) (some p) lastV w h

/-- C6 (amended): provided `minWidth ≤ maxWidth` and — when pressure mode is
active — every point carries a pressure value in `[0, 1]`, the Width
Modulator returns one width per input point, each lying in
`[minWidth, maxWidth]`, in both pressure mode and velocity mode. -/
theorem widths_length_and_bounds (o : SigOptions) (points : List Point)
    (minW maxW : ℝ) (hle : minW ≤ maxW)
    (hpr : usePressure o points →
      ∀ p ∈ points, ∃ pr, p.pressure = some pr ∧ 0 ≤ pr ∧ pr ≤ 1) :
    (calculateWidths o points minW maxW).length = points.length
    ∧ ∀ w ∈ calculateWidths o points minW maxW, minW ≤ w ∧ w ≤ maxW := by
  refine ⟨calcLoop_length o minW maxW _ points none 0, ?_⟩
  by_cases hup : usePressure o points
  · exact calcLoop_pressure_bounds o minW maxW _ hup hle points (hpr hup) none 0
  · exact calcLoop_velocity_bounds o minW maxW _ hup hle points none 0

/-- C6 counterexample: with the (permitted) configuration
`minWidth = 3 > maxWidth = 1` in velocity mode, the single emitted width is 3,
which does not lie in the (empty) interval `[3, 1]` — so the claim fails for
some configuration. -/
theorem widths_not_clamped_when_min_gt_max :
    ¬ ∀ w ∈ calculateWidths ⟨3, 1, 7/10, 2, 4/5, 1/2, 4, false⟩
        [⟨0, 0, 0, none⟩] 3 1, 3 ≤ w ∧ w ≤ 1 := by
  intro h
  have hnp : ¬ usePressure ⟨3, 1, 7/10, 2, 4/5, 1/2, 4, false⟩ [⟨0, 0, 0, none⟩] := by
    simp [usePressure]
  have hv : calculateWidths ⟨3, 1, 7/10, 2, 4/5, 1/2, 4, false⟩ [⟨0, 0, 0, none⟩] 3 1
      = [3] := by
    simp only [calculateWidths, calcLoop, if_neg hnp]
    norm_num [velOfPrev, max_def, min_def]
  rw [hv] at h
  have := (h 3 (by simp)).2
  norm_num at this

/-- C6 witness for the amended claim: a single velocity-mode point with
`minWidth = 1 ≤ maxWidth = 2` gets one width inside `[1, 2]`. -/
theorem widths_length_and_bounds_witness :
    (calculateWidths ⟨1, 2, 7/10, 2, 4/5, 1/2, 4, false⟩ [⟨0, 0, 0, none⟩] 1 2).length = 1
    ∧ ∀ w ∈ calculateWidths ⟨1, 2, 7/10, 2, 4/5, 1/2, 4, false⟩ [⟨0, 0, 0, none⟩] 1 2,
        1 ≤ w ∧ w ≤ 2 :=
  widths_length_and_bounds ⟨1, 2, 7/10, 2, 4/5, 1/2, 4, false⟩ [⟨0, 0, 0, none⟩] 1 2
    (by norm_num) (fun hup => absurd hup (by simp [usePressure]))

theorem hypot_sq {a b c : ℝ} (hc : 0 ≤ c) (h : a * a + b * b = c ^ 2) :
    hypot a b = c := by
  rw [hypot, h, Real.sqrt_sq hc]

theorem lt_hypot {a b c : ℝ} (hc : 0 ≤ c) (h : c ^ 2 < a * a + b * b) :
    c < hypot a b := by
  rw [hypot]
  exact (Real.lt_sqrt hc).mpr h

theorem amendedVelocity_eq_instant (q p : Point) (vF : ℝ) :
    amendedVelocity q p vF = instantVelocity q p vF := by
  simp only [amendedVelocity, instantVelocity]
  by_cases h : 0 < p.time - q.time
  · rw [if_neg (not_le.mpr h), if_pos h]
  · rw [if_pos (not_lt.mp h), if_neg h]

theorem claimVelOfPrev_amended_eq (prev : Option Point) (p : Point) (vF : ℝ) :
    claimVelOfPrev amendedVelocity prev p vF = velOfPrev prev p vF := by
  cases prev with
  | none => rfl
  | some q => exact amendedVelocity_eq_instant q p vF

theorem foldl_amended_eq_calcLoop (o : SigOptions) (minW maxW : ℝ) {useP : Prop}
    (hnp : ¬ useP) :
    ∀ (points : List Point) (prev : Option Point) (vF : ℝ) (acc : List ℝ),
      (points.foldl (claimVelStep o.velocityFilterWeight minW maxW
          (claimVelOfPrev amendedVelocity)) (prev, vF, acc)).2.2
        = acc ++ calcLoop o minW maxW useP prev vF points := by
  intro points
  induction points with
  | nil =>
      intro prev vF acc
      simp [calcLoop]
  | cons p rest ih =>
      intro prev vF acc
      rw [List.foldl_cons, calcLoop_cons_velocity o minW maxW hnp prev vF p rest]
      have hstep : claimVelStep o.velocityFilterWeight minW maxW
            (claimVelOfPrev amendedVelocity) (prev, vF, acc) p
          = (some p,
              velOfPrev prev p vF * (1 - o.velocityFilterWeight) +
                vF * o.velocityFilterWeight,
              acc ++ [max minW (min maxW (maxW -
                (velOfPrev prev p vF * (1 - o.velocityFilterWeight) +
                  vF * o.velocityFilterWeight) * 1.5))]) := by
        simp only [claimVelStep, claimVelOfPrev_amended_eq]
      rw [hstep, ih]
      simp

/-- C2 (amended): in velocity mode (pressure mode inactive) the Width
Modulator computes, per point: instantaneous velocity 0 for the first point,
otherwise Euclidean distance over the time delta, falling back to the
previous filtered velocity when the time delta is zero **or negative**; the
filtered velocity is `v·(1-weight) + vPrev·weight` with
`weight = velocityFilterWeight`, and the emitted width is
`clamp(maxWidth - vFiltered·1.5, minWidth, maxWidth)`, so the first point
gets `maxWidth` clamped against `minWidth`. -/
theorem calculateWidths_velocity_spec (o : SigOptions) (points : List Point)
    (minW maxW : ℝ) (hnp : ¬ usePressure o points) :
    calculateWidths o points minW maxW
      = amendedVelWidths o.velocityFilterWeight minW maxW points := by
  rw [calculateWidths, amendedVelWidths,
    foldl_amended_eq_calcLoop o minW maxW hnp points none 0 []]
  simp

/-- C2 witness: a single velocity-mode point, where both the source function
and the amended reference emit one width. -/
theorem calculateWidths_velocity_spec_witness :
    calculateWidths ⟨0, 10, 1/2, 2, 4/5, 1/2, 4, false⟩ [⟨0, 0, 0, none⟩] 0 10
      = amendedVelWidths (1/2) 0 10 [⟨0, 0, 0, none⟩] :=
  calculateWidths_velocity_spec ⟨0, 10, 1/2, 2, 4/5, 1/2, 4, false⟩
    [⟨0, 0, 0, none⟩] 0 10 (by simp [usePressure])

/-- C2 counterexample: at a negative time delta the source falls back to the
previous filtered velocity, while the claim's formula divides by the delta:
with points `(0,0,t=0), (0,2,t=-1), (0,4,t=0)` the source emits widths
`[10, 10, 8.5]` but the claim's recurrence gives `[10, 10, 9.25]`. -/
theorem calculateWidths_ne_claim_at_negative_dt :
    calculateWidths ⟨0, 10, 1/2, 2, 4/5, 1/2, 4, false⟩
        [⟨0, 0, 0, none⟩, ⟨0, 2, -1, none⟩, ⟨0, 4, 0, none⟩] 0 10
      ≠ claimVelWidths (1/2) 0 10
        [⟨0, 0, 0, none⟩, ⟨0, 2, -1, none⟩, ⟨0, 4, 0, none⟩] := by
  have h20 : hypot 0 2 = 2 := hypot_sq (by norm_num) (by norm_num)
  have hnp : ¬ usePressure ⟨0, 10, 1/2, 2, 4/5, 1/2, 4, false⟩
      [⟨0, 0, 0, none⟩, ⟨0, 2, -1, none⟩, ⟨0, 4, 0, none⟩] := by
    simp [usePressure]
  have hcode : calculateWidths ⟨0, 10, 1/2, 2, 4/5, 1/2, 4, false⟩
      [⟨0, 0, 0, none⟩, ⟨0, 2, -1, none⟩, ⟨0, 4, 0, none⟩] 0 10 = [10, 10, 17/2] := by
    simp only [calculateWidths, calcLoop, if_neg hnp, velOfPrev, instantVelocity]
    norm_num [h20, max_def, min_def]
  have hclaim : claimVelWidths (1/2) 0 10
      [⟨0, 0, 0, none⟩, ⟨0, 2, -1, none⟩, ⟨0, 4, 0, none⟩] = [10, 10, 37/4] := by
    simp only [claimVelWidths, List.foldl_cons, List.foldl_nil, claimVelStep,
      claimVelOfPrev, claimVelocity]
    norm_num [h20, max_def, min_def]
  rw [hcode, hclaim]
  intro h
  simp only [List.cons.injEq] at h
  norm_num at h

theorem filterLoop_idem (minD : ℝ) :
    ∀ (rest : List Point) (last : Point),
      filterLoop minD last (filterLoop minD last rest) = filterLoop minD last rest := by
  intro rest
  induction rest with
  | nil => intro last; rfl
  | cons q rest ih =>
      intro last
      by_cases h : hypot (q.x - last.x) (q.y - last.y) > minD
      · rw [show filterLoop minD last (q :: rest) = q :: filterLoop minD q rest by
          simp only [filterLoop, if_pos h]]
        rw [show filterLoop minD last (q :: filterLoop minD q rest)
            = q :: filterLoop minD q (filterLoop minD q rest) by
          simp only [filterLoop, if_pos h]]
        rw [ih q]
      · rw [show filterLoop minD last (q :: rest) = filterLoop minD last rest by
          simp only [filterLoop, if_neg h]]
        exact ih last

theorem distanceFilter_idem (minD : ℝ) (points : List Point) :
    distanceFilter minD (distanceFilter minD points) = distanceFilter minD points := by
  cases points with
  | nil => rfl
  | cons p0 rest =>
      show distanceFilter minD (p0 :: filterLoop minD p0 rest)
        = p0 :: filterLoop minD p0 rest
      rw [show distanceFilter minD (p0 :: filterLoop minD p0 rest)
          = p0 :: filterLoop minD p0 (filterLoop minD p0 rest) from rfl]
      rw [filterLoop_idem minD rest p0]

theorem smoothAt_ratio_zero (fade : ℝ) (s : List Point) (i : ℕ) :
    smoothAt 0 fade s i = s.getD i default := by
  simp only [smoothAt, zero_mul, mul_zero, sub_zero, mul_one, add_zero]

theorem getD_range_eq (s : List Point) :
    (List.range s.length).map (fun j => s.getD j default) = s := by
  induction s with
  | nil => rfl
  | cons a t ih =>
      rw [show (a :: t).length = t.length + 1 from rfl, List.range_succ_eq_map]
      simp only [List.map_cons, List.getD_cons_zero, List.map_map]
      congr 1

theorem cons_interior_last_eq (s : List Point) (n : ℕ) (hn : s.length = n + 3) :
    s.getD 0 default ::
        (((List.range (n + 1)).map fun j => s.getD (j + 1) default) ++
          [s.getD (n + 2) default])
      = s := by
  have h := getD_range_eq s
  rw [hn] at h
  conv_rhs => rw [← h]
  rw [range_map_decomp (fun j => s.getD j default) n]

theorem smoothPoints_ratio_zero (fade : ℝ) (s : List Point) (hs : 3 ≤ s.length) :
    smoothPoints 0 fade s = s := by
  obtain ⟨n, hn⟩ : ∃ n, s.length = n + 3 := ⟨s.length - 3, by omega⟩
  unfold smoothPoints
  rw [hn]
  have h2 : n + 3 - 2 = n + 1 := rfl
  have h1 : n + 3 - 1 = n + 2 := rfl
  rw [h2, h1]
  have hsm : ((List.range (n + 1)).map fun j => smoothAt 0 fade s (j + 1))
      = (List.range (n + 1)).map fun j => s.getD (j + 1) default :=
    List.map_congr_left fun j _ => smoothAt_ratio_zero fade s (j + 1)
  rw [hsm]
  exact cons_interior_last_eq s n hn

/-- C7 (amended): when `smoothingRatio = 0` — i.e. when the smoothing stage
displaces nothing — simplification is idempotent: re-simplifying its own
output (with `minDistance` and all smoothing options unchanged) returns that
output unchanged, so the second pass keeps exactly as many points.  With
smoothing active, idempotence fails (see the counterexample). -/
theorem simplify_idempotent_of_ratio_zero (o : SigOptions) (points : List Point)
    (hr : o.smoothingRatio = 0) :
    simplifyStroke o (simplifyStroke o points) = simplifyStroke o points := by
  by_cases h3 : points.length < 3
  · have e1 : simplifyStroke o points = points := by
      rw [simplifyStroke, if_pos h3]
    rw [e1]
    exact e1
  · by_cases hf : (distanceFilter o.minDistance points).length < 3
    · have e1 : simplifyStroke o points = distanceFilter o.minDistance points := by
        simp only [simplifyStroke]
        rw [if_neg h3, if_pos hf]
      have e2 : simplifyStroke o (distanceFilter o.minDistance points)
          = distanceFilter o.minDistance points := by
        rw [simplifyStroke, if_pos hf]
      rw [e1]
      exact e2
    · have e1 : simplifyStroke o points = distanceFilter o.minDistance points := by
        simp only [simplifyStroke]
        rw [if_neg h3, if_neg hf, hr,
          smoothPoints_ratio_zero o.smoothingFadePoints _ (by omega)]
      have e2 : simplifyStroke o (distanceFilter o.minDistance points)
          = distanceFilter o.minDistance points := by
        simp only [simplifyStroke]
        rw [distanceFilter_idem, if_neg hf, if_neg hf, hr,
          smoothPoints_ratio_zero o.smoothingFadePoints _ (by omega)]
      rw [e1]
      exact e2

/-- C7 witness for the amended claim: with `smoothingRatio = 0` (other
options at the library defaults), re-simplifying the output of a zig-zag
stroke returns it unchanged. -/
theorem simplify_idempotent_of_ratio_zero_witness :
    simplifyStroke ⟨1/2, 5/2, 7/10, 2, 4/5, 0, 4, false⟩
        (simplifyStroke ⟨1/2, 5/2, 7/10, 2, 4/5, 0, 4, false⟩
          [⟨0, 0, 0, none⟩, ⟨8, 8, 0, none⟩, ⟨16, 0, 0, none⟩, ⟨24, 8, 0, none⟩])
      = simplifyStroke ⟨1/2, 5/2, 7/10, 2, 4/5, 0, 4, false⟩
          [⟨0, 0, 0, none⟩, ⟨8, 8, 0, none⟩, ⟨16, 0, 0, none⟩, ⟨24, 8, 0, none⟩] :=
  simplify_idempotent_of_ratio_zero ⟨1/2, 5/2, 7/10, 2, 4/5, 0, 4, false⟩
    [⟨0, 0, 0, none⟩, ⟨8, 8, 0, none⟩, ⟨16, 0, 0, none⟩, ⟨24, 8, 0, none⟩] rfl

/-- C7 counterexample: with the library's default configuration
(`minDistance = 0.8`, `smoothingRatio = 0.5`, `smoothingFadePoints = 4`),
a second simplification pass moves the zig-zag stroke
`(0,0), (8,8), (16,0), (24,8)` again: the first pass yields
`(0,0), (8,7), (16,0), (24,8)` and the second `(0,0), (8, 49/8), (16,0),
(24,8)` — so simplification is not idempotent as claimed. -/
theorem simplify_not_idempotent :
    simplifyStroke ⟨1/2, 5/2, 7/10, 2, 4/5, 1/2, 4, false⟩
        (simplifyStroke ⟨1/2, 5/2, 7/10, 2, 4/5, 1/2, 4, false⟩
          [⟨0, 0, 0, none⟩, ⟨8, 8, 0, none⟩, ⟨16, 0, 0, none⟩, ⟨24, 8, 0, none⟩])
      ≠ simplifyStroke ⟨1/2, 5/2, 7/10, 2, 4/5, 1/2, 4, false⟩
          [⟨0, 0, 0, none⟩, ⟨8, 8, 0, none⟩, ⟨16, 0, 0, none⟩, ⟨24, 8, 0, none⟩] := by
  have hp88 : (4/5 : ℝ) < hypot 8 8 := lt_hypot (by norm_num) (by norm_num)
  have hp8m8 : (4/5 : ℝ) < hypot 8 (-8) := lt_hypot (by norm_num) (by norm_num)
  have hp87 : (4/5 : ℝ) < hypot 8 7 := lt_hypot (by norm_num) (by norm_num)
  have hp8m7 : (4/5 : ℝ) < hypot 8 (-7) := lt_hypot (by norm_num) (by norm_num)
  have hf1 : distanceFilter (4/5)
      [⟨0, 0, 0, none⟩, ⟨8, 8, 0, none⟩, ⟨16, 0, 0, none⟩, ⟨24, 8, 0, none⟩]
      = [⟨0, 0, 0, none⟩, ⟨8, 8, 0, none⟩, ⟨16, 0, 0, none⟩, ⟨24, 8, 0, none⟩] := by
    norm_num [distanceFilter, filterLoop, hp88, hp8m8]
  have hs1 : smoothPoints (1/2) 4
      [⟨0, 0, 0, none⟩, ⟨8, 8, 0, none⟩, ⟨16, 0, 0, none⟩, ⟨24, 8, 0, none⟩]
      = [⟨0, 0, 0, none⟩, ⟨8, 7, 0, none⟩, ⟨16, 0, 0, none⟩, ⟨24, 8, 0, none⟩] := by
    norm_num [smoothPoints, smoothAt, List.range_succ, min_def]
  have e1 : simplifyStroke ⟨1/2, 5/2, 7/10, 2, 4/5, 1/2, 4, false⟩
      [⟨0, 0, 0, none⟩, ⟨8, 8, 0, none⟩, ⟨16, 0, 0, none⟩, ⟨24, 8, 0, none⟩]
      = [⟨0, 0, 0, none⟩, ⟨8, 7, 0, none⟩, ⟨16, 0, 0, none⟩, ⟨24, 8, 0, none⟩] := by
    simp only [simplifyStroke]
    norm_num [hf1, hs1]
  have hf2 : distanceFilter (4/5)
      [⟨0, 0, 0, none⟩, ⟨8, 7, 0, none⟩, ⟨16, 0, 0, none⟩, ⟨24, 8, 0, none⟩]
      = [⟨0, 0, 0, none⟩, ⟨8, 7, 0, none⟩, ⟨16, 0, 0, none⟩, ⟨24, 8, 0, none⟩] := by
    norm_num [distanceFilter, filterLoop, hp87, hp8m7, hp88]
  have hs2 : smoothPoints (1/2) 4
      [⟨0, 0, 0, none⟩, ⟨8, 7, 0, none⟩, ⟨16, 0, 0, none⟩, ⟨24, 8, 0, none⟩]
      = [⟨0, 0, 0, none⟩, ⟨8, 49/8, 0, none⟩, ⟨16, 0, 0, none⟩, ⟨24, 8, 0, none⟩] := by
    norm_num [smoothPoints, smoothAt, List.range_succ, min_def]
  have e2 : simplifyStroke ⟨1/2, 5/2, 7/10, 2, 4/5, 1/2, 4, false⟩
      [⟨0, 0, 0, none⟩, ⟨8, 7, 0, none⟩, ⟨16, 0, 0, none⟩, ⟨24, 8, 0, none⟩]
      = [⟨0, 0, 0, none⟩, ⟨8, 49/8, 0, none⟩, ⟨16, 0, 0, none⟩, ⟨24, 8, 0, none⟩] := by
    simp only [simplifyStroke]
    norm_num [hf2, hs2]
  rw [e1, e2]
  intro h
  simp only [List.cons.injEq, Point.mk.injEq] at h
  norm_num at h

theorem specTangent_eq (points : List Point) (hlen : 2 ≤ points.length)
    (i : ℕ) (hi : i < points.length) :
    specTangent points i = tangentAt points i := by
  simp only [specTangent, tangentAt]
  split_ifs with h1 h2 h3 h4 h5 h6 h7 <;> try omega
  all_goals try (subst h1; rfl)
  all_goals try rfl

theorem specOutline_pos_eq (points : List Point) (widths : List ℝ)
    (hlen : 2 ≤ points.length) :
    specOutline points widths 1 = outline1 points widths := by
  unfold specOutline outline1
  refine List.map_congr_left fun i hi => ?_
  have hi2 : i < points.length := List.mem_range.mp hi
  simp only [specNormal, normalAt, specTangent_eq points hlen i hi2, Prod.mk.injEq]
  constructor <;> ring

theorem specOutline_neg_eq (points : List Point) (widths : List ℝ)
    (hlen : 2 ≤ points.length) :
    specOutline points widths (-1) = outline2 points widths := by
  unfold specOutline outline2
  refine List.map_congr_left fun i hi => ?_
  have hi2 : i < points.length := List.mem_range.mp hi
  simp only [specNormal, normalAt, specTangent_eq points hlen i hi2, Prod.mk.injEq]
  constructor <;> ring

theorem quadMidCmds_eq_specQuads (ol : List (ℝ × ℝ)) :
    quadMidCmds ol = specQuads ol := by
  induction ol with
  | nil => rfl
  | cons a t ih =>
      cases t with
      | nil => rfl
      | cons b t2 =>
          rw [show specQuads (a :: b :: t2)
              = PathCmd.quad a ((a.1 + b.1) / 2, (a.2 + b.2) / 2) :: specQuads (b :: t2)
            from rfl, ← ih]
          unfold quadMidCmds
          rw [show (a :: b :: t2).length - 1 = t2.length + 1 from rfl,
            show (b :: t2).length - 1 = t2.length from rfl,
            List.range_succ_eq_map]
          simp only [List.map_cons, List.map_map]
          congr 1

/-- C4 (amended): for at least 2 points, the Outline Path Builder computes
per-point tangents (forward difference first, backward difference last,
centered difference halved inside), normalizes with a unit-length substitute
for zero tangents, displaces by the rotated normal times half the width to
form the two outlines, and emits: move to `outline1[0]`, start-cap arc of
radius `width[0]/2` to `outline2[0]`, the forward midpoint-quadratic walk of
`outline2`, **a line segment to the last `outline2` point**, the end-cap arc
of radius `width[last]/2` to the last `outline1` point, the backward
midpoint-quadratic walk of `outline1`, and close. -/
theorem outline_path_eq_amended_spec (o : SigOptions) (points : List Point)
    (widths : List ℝ) (hlen : 2 ≤ points.length) :
    generateSmoothSvgPathData o points widths = amendedOutlinePath points widths := by
  have h2 : ¬ points.length < 2 := by omega
  simp only [generateSmoothSvgPathData, amendedOutlinePath]
  rw [if_neg h2, specOutline_pos_eq points widths hlen, specOutline_neg_eq points widths hlen,
    ← quadMidCmds_eq_specQuads, ← quadMidCmds_eq_specQuads]

/-- C4 witness: the amended equality at a concrete two-point stroke. -/
theorem outline_path_eq_amended_spec_witness :
    generateSmoothSvgPathData ⟨1/2, 5/2, 7/10, 2, 4/5, 1/2, 4, false⟩
        [⟨0, 0, 0, none⟩, ⟨1, 0, 1, none⟩] [1, 1]
      = amendedOutlinePath [⟨0, 0, 0, none⟩, ⟨1, 0, 1, none⟩] [1, 1] :=
  outline_path_eq_amended_spec ⟨1/2, 5/2, 7/10, 2, 4/5, 1/2, 4, false⟩
    [⟨0, 0, 0, none⟩, ⟨1, 0, 1, none⟩] [1, 1] (by norm_num)

theorem specQuads_length : ∀ ol : List (ℝ × ℝ), (specQuads ol).length = ol.length - 1 := by
  intro ol
  induction ol with
  | nil => rfl
  | cons a t ih =>
      cases t with
      | nil => rfl
      | cons b t2 =>
          rw [show specQuads (a :: b :: t2)
              = PathCmd.quad a ((a.1 + b.1) / 2, (a.2 + b.2) / 2) :: specQuads (b :: t2)
            from rfl]
          simp [ih]

/-- C4 counterexample: the claim's stitched command sequence omits the line
segment to the last `outline2` point that the code emits between the forward
walk and the end cap: on a concrete two-point stroke the code emits 7 path
commands, the claimed sequence only 6. -/
theorem outline_path_ne_claim_missing_line :
    generateSmoothSvgPathData ⟨1/2, 5/2, 7/10, 2, 4/5, 1/2, 4, false⟩
        [⟨0, 0, 0, none⟩, ⟨1, 0, 1, none⟩] [1, 1]
      ≠ claimOutlinePath [⟨0, 0, 0, none⟩, ⟨1, 0, 1, none⟩] [1, 1] := by
  intro h
  have hlen1 : (generateSmoothSvgPathData ⟨1/2, 5/2, 7/10, 2, 4/5, 1/2, 4, false⟩
      [⟨0, 0, 0, none⟩, ⟨1, 0, 1, none⟩] [1, 1]).length = 7 := by
    simp only [generateSmoothSvgPathData]
    rw [if_neg (by norm_num)]
    simp [quadMidCmds, outline1, outline2]
  have hlen2 : (claimOutlinePath [⟨0, 0, 0, none⟩, ⟨1, 0, 1, none⟩] [1, 1]).length = 6 := by
    simp [claimOutlinePath, specQuads_length, specOutline]
  rw [h, hlen2] at hlen1
  norm_num at hlen1

theorem dot_path_cmds (o : SigOptions) (p : Point) (ws : List ℝ)
    (hne : o.maxWidth ≠ 0) :
    generateSmoothSvgPathData o [p] ws
      = [PathCmd.move (p.x, p.y), PathCmd.moveRel (-(o.maxWidth / 2), 0),
          PathCmd.arcRel (o.maxWidth / 2) (o.maxWidth / 2 * 2, 0),
          PathCmd.arcRel (o.maxWidth / 2) (-(o.maxWidth / 2 * 2), 0)] := by
  simp only [generateSmoothSvgPathData]
  rw [if_pos (by norm_num), if_pos (show [p].length = 1 from rfl), if_neg hne]
  rfl

theorem dotPathTrace_pattern (a b r : ℝ) :
    dotPathTrace [PathCmd.move (a, b), PathCmd.moveRel (-r, 0),
        PathCmd.arcRel r (r * 2, 0), PathCmd.arcRel r (-(r * 2), 0)]
      = arc0Trace (a - r, b) (a + r, b) ∪ arc0Trace (a + r, b) (a - r, b) := by
  simp only [dotPathTrace]
  norm_num
  have e1 : (a + -r, b) = (a - r, b) := by
    simp only [Prod.mk.injEq, and_true]
    ring
  have e2 : (a + -r + r * 2, b) = (a + r, b) := by
    simp only [Prod.mk.injEq, and_true]
    ring
  rw [e1, e2]

theorem arc0_union_circle (c : ℝ × ℝ) (r : ℝ) (hr : 0 ≤ r) :
    arc0Trace (c.1 - r, c.2) (c.1 + r, c.2) ∪ arc0Trace (c.1 + r, c.2) (c.1 - r, c.2)
      = circle c r := by
  ext q
  simp only [arc0Trace, circle, Set.mem_union, Set.mem_setOf_eq]
  constructor
  · rintro (⟨h1, _⟩ | ⟨h1, _⟩) <;> linear_combination h1
  · intro h
    rcases le_total c.2 q.2 with hy | hy
    · left
      constructor
      · linear_combination h
      · nlinarith [mul_nonneg hr (sub_nonneg.mpr hy)]
    · right
      constructor
      · linear_combination h
      · nlinarith [mul_nonneg hr (sub_nonneg.mpr hy)]

theorem circle_bbox (c : ℝ × ℝ) (r : ℝ) (hr : 0 ≤ r) :
    (∀ q ∈ circle c r,
        c.1 - r ≤ q.1 ∧ q.1 ≤ c.1 + r ∧ c.2 - r ≤ q.2 ∧ q.2 ≤ c.2 + r)
    ∧ (c.1 - r, c.2) ∈ circle c r ∧ (c.1 + r, c.2) ∈ circle c r
    ∧ (c.1, c.2 - r) ∈ circle c r ∧ (c.1, c.2 + r) ∈ circle c r := by
  refine ⟨fun q hq => ?_, ?_, ?_, ?_, ?_⟩
  · simp only [circle, Set.mem_setOf_eq] at hq
    refine ⟨?_, ?_, ?_, ?_⟩
    · nlinarith [sq_nonneg (q.2 - c.2), sq_nonneg (q.1 - c.1 + r)]
    · nlinarith [sq_nonneg (q.2 - c.2), sq_nonneg (q.1 - c.1 - r)]
    · nlinarith [sq_nonneg (q.1 - c.1), sq_nonneg (q.2 - c.2 + r)]
    · nlinarith [sq_nonneg (q.1 - c.1), sq_nonneg (q.2 - c.2 - r)]
  · simp only [circle, Set.mem_setOf_eq]; ring
  · simp only [circle, Set.mem_setOf_eq]; ring
  · simp only [circle, Set.mem_setOf_eq]; ring
  · simp only [circle, Set.mem_setOf_eq]; ring

/-- C5 (amended): for a single-point input the Outline Path Builder emits the
full-circle path — two 180° relative arcs — centered at the point with radius
`r = maxWidth/2` (that is, `options.maxWidth`, with `dotSize` substituted
when `maxWidth` is zero — NOT `width[0]/2`); the set of points traced by the
two arcs is exactly that circle, and its axis-aligned bounding box is exactly
`[x-r, x+r] × [y-r, y+r]`, with all four extremes attained on the path. -/
theorem dot_path_circle_and_bbox (o : SigOptions) (p : Point) (ws : List ℝ)
    (hne : o.maxWidth ≠ 0) (hpos : 0 ≤ o.maxWidth) :
    (generateSmoothSvgPathData o [p] ws
      = [PathCmd.move (p.x, p.y), PathCmd.moveRel (-(o.maxWidth / 2), 0),
          PathCmd.arcRel (o.maxWidth / 2) (o.maxWidth / 2 * 2, 0),
          PathCmd.arcRel (o.maxWidth / 2) (-(o.maxWidth / 2 * 2), 0)])
    ∧ dotPathTrace (generateSmoothSvgPathData o [p] ws)
        = circle (p.x, p.y) (o.maxWidth / 2)
    ∧ (∀ q ∈ circle (p.x, p.y) (o.maxWidth / 2),
          p.x - o.maxWidth / 2 ≤ q.1 ∧ q.1 ≤ p.x + o.maxWidth / 2 ∧
          p.y - o.maxWidth / 2 ≤ q.2 ∧ q.2 ≤ p.y + o.maxWidth / 2)
    ∧ (p.x - o.maxWidth / 2, p.y) ∈ circle (p.x, p.y) (o.maxWidth / 2)
    ∧ (p.x + o.maxWidth / 2, p.y) ∈ circle (p.x, p.y) (o.maxWidth / 2)
    ∧ (p.x, p.y - o.maxWidth / 2) ∈ circle (p.x, p.y) (o.maxWidth / 2)
    ∧ (p.x, p.y + o.maxWidth / 2) ∈ circle (p.x, p.y) (o.maxWidth / 2) := by
  have hr : 0 ≤ o.maxWidth / 2 := by linarith
  have hcmds := dot_path_cmds o p ws hne
  have htrace : dotPathTrace (generateSmoothSvgPathData o [p] ws)
      = circle (p.x, p.y) (o.maxWidth / 2) := by
    rw [hcmds, dotPathTrace_pattern p.x p.y (o.maxWidth / 2),
      arc0_union_circle (p.x, p.y) (o.maxWidth / 2) hr]
  have hbox := circle_bbox (p.x, p.y) (o.maxWidth / 2) hr
  exact ⟨hcmds, htrace, hbox.1, hbox.2.1, hbox.2.2.1, hbox.2.2.2.1, hbox.2.2.2.2⟩

/-- C5 witness: the amended statement at the point `(0,0)` with
`maxWidth = 2` (radius 1). -/
theorem dot_path_circle_and_bbox_witness :
    (generateSmoothSvgPathData ⟨1/2, 2, 7/10, 2, 4/5, 1/2, 4, false⟩
        [⟨0, 0, 0, none⟩] [2]
      = [PathCmd.move (0, 0), PathCmd.moveRel (-(2 / 2 : ℝ), 0),
          PathCmd.arcRel (2 / 2) (2 / 2 * 2, 0), PathCmd.arcRel (2 / 2) (-(2 / 2 * 2), 0)])
    ∧ dotPathTrace (generateSmoothSvgPathData ⟨1/2, 2, 7/10, 2, 4/5, 1/2, 4, false⟩
          [⟨0, 0, 0, none⟩] [2]) = circle (0, 0) (2 / 2)
    ∧ (∀ q ∈ circle ((0 : ℝ), (0 : ℝ)) (2 / 2),
          (0 : ℝ) - 2 / 2 ≤ q.1 ∧ q.1 ≤ 0 + 2 / 2 ∧
          (0 : ℝ) - 2 / 2 ≤ q.2 ∧ q.2 ≤ 0 + 2 / 2)
    ∧ ((0 : ℝ) - 2 / 2, (0 : ℝ)) ∈ circle (0, 0) (2 / 2)
    ∧ ((0 : ℝ) + 2 / 2, (0 : ℝ)) ∈ circle (0, 0) (2 / 2)
    ∧ ((0 : ℝ), (0 : ℝ) - 2 / 2) ∈ circle (0, 0) (2 / 2)
    ∧ ((0 : ℝ), (0 : ℝ) + 2 / 2) ∈ circle (0, 0) (2 / 2) :=
  dot_path_circle_and_bbox ⟨1/2, 2, 7/10, 2, 4/5, 1/2, 4, false⟩ ⟨0, 0, 0, none⟩ [2]
    (by norm_num) (by norm_num)

/-- C5 counterexample: the dot radius comes from `options.maxWidth` (with a
`dotSize` fallback), not from `width[0]`: with `maxWidth = 2` and
`widths = [10]` the emitted circle has radius 1, not `width[0]/2 = 5` as the
claim states. -/
theorem dot_path_radius_ne_width0 :
    generateSmoothSvgPathData ⟨1/2, 2, 7/10, 2, 4/5, 1/2, 4, false⟩
        [⟨0, 0, 0, none⟩] [10]
      ≠ [PathCmd.move (0, 0), PathCmd.moveRel (-(5 : ℝ), 0),
          PathCmd.arcRel 5 (10, 0), PathCmd.arcRel 5 (-(10 : ℝ), 0)] := by
  rw [dot_path_cmds ⟨1/2, 2, 7/10, 2, 4/5, 1/2, 4, false⟩ ⟨0, 0, 0, none⟩ [10]
    (by norm_num)]
  intro h
  simp only [List.cons.injEq, PathCmd.moveRel.injEq, PathCmd.arcRel.injEq,
    Prod.mk.injEq] at h
  norm_num at h

end CzSig
